import Mathlib

/-!
Verification development for the GSC analytics CLI's client-side
result-shaping pipeline (query normalization, multi-column sorting,
string/numeric filtering, pagination formatting).

Shallow embedding conventions:
* JavaScript values occurring in result rows are modelled by `JsVal`
  (strings and numbers); JS numbers are modelled as rationals, so
  floating-point rounding of the underlying doubles is not modelled.
* A result row is an association list from field names to values;
  a missing field (JS `undefined`) is `Option.none`.
* `Array.prototype.sort` is modelled by a stable top-down merge sort
  (`sortFuel`, proved equal to `List.mergeSort`).  ECMAScript (ES2019+)
  specifies exactly this behaviour whenever the comparator is consistent;
  for an inconsistent comparator the engine's order is
  implementation-defined, and the merge sort is taken as the model.
* Fallible code (`throw`) is modelled with `Except String`.
* `String.toLower`/`String.trim` model the ASCII fragment of JS
  `toLowerCase`/`trim`.
-/

/-- A JavaScript value stored in a result row: a string or a number.
JS numbers are modelled as rationals. -/
inductive JsVal where
  | str : String → JsVal
  | num : ℚ → JsVal
deriving DecidableEq, Repr

/-- A result row: a flat mapping from field names to values, modelled as an
association list (JS object with insertion-ordered keys). -/
abbrev Row := List (String × JsVal)

/-- JS `row[field]`: the value of a field, `none` when the field is absent
(JS `undefined`). -/
def rowGet (r : Row) (field : String) : Option JsVal :=
  (r.find? (fun p => p.1 == field)).map Prod.snd

/-- Numeric value of a list of decimal digit characters. -/
def digitsToNat (ds : List Char) : ℕ :=
  ds.foldl (fun n c => n * 10 + (c.toNat - '0'.toNat)) 0

/-- The exact rational value of a decimal literal with optional sign,
integer digits `ds`, fractional digits `fs` and decimal exponent `ex`:
`±(ds.fs) * 10^ex` (built with `mkRat` over integers). -/
def decValue (neg : Bool) (ds fs : List Char) (ex : ℤ) : ℚ :=
  let mantNum : ℤ := (digitsToNat ds * 10 ^ fs.length + digitsToNat fs : ℕ)
  let n : ℤ := if neg then -mantNum else mantNum
  if 0 ≤ ex then mkRat (n * ((10 ^ ex.toNat : ℕ) : ℤ)) (10 ^ fs.length)
  else mkRat n (10 ^ (fs.length + (-ex).toNat))

/-- JS whitespace test (ASCII fragment: space, tab, CR, LF). -/
def isWS (c : Char) : Bool := c.isWhitespace

/-- JS `String.prototype.trim` (ASCII-whitespace fragment), computed on the
character list. -/
def jsTrim (s : String) : String :=
  String.mk (((s.data.dropWhile isWS).reverse.dropWhile isWS).reverse)

/-- JS `String.prototype.toLowerCase` (ASCII fragment), computed on the
character list. -/
def jsToLower (s : String) : String :=
  String.mk (s.data.map Char.toLower)

/-- JS `String.prototype.split` on a single separator character, computed
on the character list (`"".split(c)` gives `[""]`, as in JS). -/
def splitCharAux (sep : Char) : List Char → List Char → List String
  | [], acc => [String.mk acc.reverse]
  | c :: t, acc =>
    if c = sep then String.mk acc.reverse :: splitCharAux sep t [] else splitCharAux sep t (c :: acc)

/-- JS `s.split(sep)` for a one-character separator. -/
def splitChar (s : String) (sep : Char) : List String :=
  splitCharAux sep s.data []

/-- Attempt to read the token of the regex `-?\d+(?:\.\d+)?(?:[eE][+-]?\d+)?`
at the head of the character list (greedy components; an incomplete
fractional or exponent part is not consumed, as in regex backtracking).
Returns the numeric value of the token (`parseFloat` of the token is exact
on such decimal tokens, up to double rounding which is not modelled). -/
def tryNumToken (cs : List Char) : Option ℚ :=
  let (neg, cs1) :=
    match cs with
    | '-' :: rest => (true, rest)
    | _ => (false, cs)
  let (ds, cs2) := cs1.span Char.isDigit
  if ds.isEmpty then none
  else
    let (fs, cs3) :=
      match cs2 with
      | '.' :: rest =>
        let (fds, rest2) := rest.span Char.isDigit
        if fds.isEmpty then (([] : List Char), cs2) else (fds, rest2)
      | _ => (([] : List Char), cs2)
    let ex : ℤ :=
      match cs3 with
      | c :: rest =>
        if c = 'e' ∨ c = 'E' then
          match rest with
          | '+' :: r2 =>
            let (eds, _) := r2.span Char.isDigit
            if eds.isEmpty then 0 else (digitsToNat eds : ℤ)
          | '-' :: r2 =>
            let (eds, _) := r2.span Char.isDigit
            if eds.isEmpty then 0 else -(digitsToNat eds : ℤ)
          | r2 =>
            let (eds, _) := r2.span Char.isDigit
            if eds.isEmpty then 0 else (digitsToNat eds : ℤ)
        else 0
      | [] => 0
    some (decValue neg ds fs ex)

/-- Scan for the leftmost match of the numeric-token regex, trying each
start position from the left, as the regex engine does. -/
def findNumToken : List Char → Option ℚ
  | [] => none
  | c :: rest =>
    match tryNumToken (c :: rest) with
    | some q => some q
    | none => findNumToken rest

/-- `parseNumericValue(input)` from `renderers.js`: extract the first
signed/decimal (optionally exponential) number from the input string;
`null` (here `none`) when the string holds no numeric token. -/
def parseNumericValue (s : String) : Option ℚ :=
  findNumToken s.data

/-- JS `ToNumber` on strings (the decimal fragment): trimmed; empty means 0;
otherwise an optional sign followed by `digits[.digits]`, `.digits` or
`digits.`, with an optional complete exponent part, consuming the whole
string.  `Infinity`, hex/octal/binary literals and non-ASCII whitespace are
not modelled (they yield `none` here). `none` stands for NaN. -/
def strToNumber (s : String) : Option ℚ :=
  let cs := (jsTrim s).data
  if cs.isEmpty then some 0
  else
    let (neg, cs1) :=
      match cs with
      | '-' :: rest => (true, rest)
      | '+' :: rest => (false, rest)
      | _ => (false, cs)
    let (ds, cs2) := cs1.span Char.isDigit
    let (dotSeen, afterDot) :=
      match cs2 with
      | '.' :: rest => (true, rest)
      | _ => (false, cs2)
    let (fs, cs3) := if dotSeen then afterDot.span Char.isDigit else (([] : List Char), cs2)
    if ds.isEmpty ∧ fs.isEmpty then none
    else
      let (ex, cs4) :=
        match cs3 with
        | c :: rest =>
          if c = 'e' ∨ c = 'E' then
            match rest with
            | '+' :: r2 =>
              let (eds, r3) := r2.span Char.isDigit
              if eds.isEmpty then ((0 : ℤ), cs3) else ((digitsToNat eds : ℤ), r3)
            | '-' :: r2 =>
              let (eds, r3) := r2.span Char.isDigit
              if eds.isEmpty then ((0 : ℤ), cs3) else (-(digitsToNat eds : ℤ), r3)
            | r2 =>
              let (eds, r3) := r2.span Char.isDigit
              if eds.isEmpty then ((0 : ℤ), cs3) else ((digitsToNat eds : ℤ), r3)
          else ((0 : ℤ), cs3)
        | [] => ((0 : ℤ), cs3)
      if cs4.isEmpty then some (decValue neg ds fs ex) else none

/-- Left-pad a string with zeros to the given length. -/
def padZeros (s : String) (k : ℕ) : String :=
  String.mk (List.replicate (k - s.length) '0') ++ s

/-- Smallest exponent `k ≤ 40` such that `d` divides `10^k`, if any. -/
def termExp (d : ℕ) : Option ℕ :=
  (List.range 41).find? (fun k => 10 ^ k % d = 0)

/-- JS number-to-string conversion, on the model's rationals: integers print
without a decimal point, other values print their exact terminating decimal
expansion (every JS double is a dyadic rational, so its exact value
terminates; the shortest-round-trip digit selection of doubles is not
modelled, nor is the exponential notation used beyond 1e21).  The
fallback branch for non-terminating rationals is unreachable for values
arising from JS numbers. -/
def numToString (q : ℚ) : String :=
  let sgn := if q < 0 then "-" else ""
  let a : ℚ := |q|
  let n := a.num.toNat
  let d := a.den
  if d = 1 then sgn ++ toString n
  else
    match termExp d with
    | some k =>
      let scaled := n * 10 ^ k / d
      let ip := scaled / 10 ^ k
      let fr := scaled % 10 ^ k
      sgn ++ toString ip ++ "." ++ padZeros (toString fr) k
    | none => sgn ++ toString (n / d) ++ ".NONTERM"

/-- JS `String(fieldValue ?? '')`: stringify a possibly-missing field value,
with `undefined` collapsing to the empty string. -/
def jsString (v : Option JsVal) : String :=
  match v with
  | none => ""
  | some (.str s) => s
  | some (.num q) => numToString q

/-- Substring test, modelling JS `String.prototype.includes`. -/
def inclAux (needle : List Char) : List Char → Bool
  | [] => needle.isEmpty
  | c :: t => needle.isPrefixOf (c :: t) || inclAux needle t

/-- JS `hay.includes(needle)`. -/
def jsIncludes (hay needle : String) : Bool :=
  inclAux needle.data hay.data

/-- A string filter (`currentFilters.queryFilters` entry): field, operator
(`=`, `*`, `<>` or `<*>`) and comparison value. -/
structure QueryFilter where
  field : String
  op : String
  value : String
deriving DecidableEq, Repr

/-- A numeric filter (`currentFilters.compareFilters` entry): field, operator
(`>=`, `<=`, `>`, `<` or `=`) and numeric threshold. -/
structure CompareFilter where
  field : String
  op : String
  value : ℚ
deriving DecidableEq, Repr

/-- The session-scoped filter state (`currentFilters` in `renderers.js`). -/
structure FilterState where
  queryFilters : List QueryFilter
  compareFilters : List CompareFilter
deriving DecidableEq, Repr

/-- The empty filter state (the state at the start of a viewing session,
after `clearAllFilters`). -/
def emptyFilters : FilterState := ⟨[], []⟩

/-- The row predicate of `applyQueryFilter` in `renderers.js`: stringify the
field value (with `undefined` as `''`), trim both sides, compare
case-insensitively according to the operator; unknown operators keep the
row. -/
def queryFilterPred (field op value : String) (r : Row) : Bool :=
  let fieldValue := jsTrim (jsString (rowGet r field))
  let searchValue := jsTrim value
  if op = "=" then jsToLower fieldValue == jsToLower searchValue
  else if op = "*" then jsIncludes (jsToLower fieldValue) (jsToLower searchValue)
  else if op = "<>" then jsToLower fieldValue != jsToLower searchValue
  else if op = "<*>" then !jsIncludes (jsToLower fieldValue) (jsToLower searchValue)
  else true

/-- `applyQueryFilter(rows, field, operator, value)` from `renderers.js`. -/
def applyQueryFilter (rows : List Row) (field op value : String) : List Row :=
  rows.filter (queryFilterPred field op value)

/-- The row predicate of `applyCompareFilter` in `renderers.js`: parse the
first numeric token out of the stringified field value; rows with no token
are excluded; otherwise compare with the operator (unknown operators keep
the row). -/
def compareFilterPred (field op : String) (value : ℚ) (r : Row) : Bool :=
  match parseNumericValue (jsString (rowGet r field)) with
  | none => false
  | some numericValue =>
    if op = ">=" then decide (numericValue ≥ value)
    else if op = "<=" then decide (numericValue ≤ value)
    else if op = ">" then decide (numericValue > value)
    else if op = "<" then decide (numericValue < value)
    else if op = "=" then numericValue == value
    else true

/-- `applyCompareFilter(rows, field, operator, value)` from `renderers.js`. -/
def applyCompareFilter (rows : List Row) (field op : String) (value : ℚ) : List Row :=
  rows.filter (compareFilterPred field op value)

/-- `applyAllFilters(rows)` from `renderers.js`: fold every stored string
filter, then every stored numeric filter, over the given row set. -/
def applyAllFilters (st : FilterState) (rows : List Row) : List Row :=
  let afterQuery :=
    st.queryFilters.foldl (fun acc f => applyQueryFilter acc f.field f.op f.value) rows
  st.compareFilters.foldl (fun acc f => applyCompareFilter acc f.field f.op f.value) afterQuery

/-- Appending a string filter to the state (`currentFilters.queryFilters.push`
in `handleQueryFilter`). -/
def addQueryFilter (st : FilterState) (f : QueryFilter) : FilterState :=
  ⟨st.queryFilters ++ [f], st.compareFilters⟩

/-- Appending a numeric filter to the state
(`currentFilters.compareFilters.push` in `handleCompareFilter`). -/
def addCompareFilter (st : FilterState) (f : CompareFilter) : FilterState :=
  ⟨st.queryFilters, st.compareFilters ++ [f]⟩

/-- One effective sort level (`{column, direction}` objects in the sorting
config's `columns` array). -/
structure SortItem where
  column : String
  direction : String
deriving DecidableEq, Repr

/-- An entry of `sortingConfig.columns`: the `'none'` sentinel string, the
`'separator1'`/`'separator2'` placeholder strings, or a `{column, direction}`
object. -/
inductive ColEntry where
  | noneE : ColEntry
  | sep1 : ColEntry
  | sep2 : ColEntry
  | item : String → String → ColEntry
deriving DecidableEq, Repr

/-- The sorting configuration object (`answers.sorting`): the new
`columns`-array format when `columns` is present, otherwise the legacy
primary/secondary format. -/
structure SortingConfig where
  columns : Option (List ColEntry)
  enabled : Bool
  primaryColumn : Option String
  primaryDirection : Option String
  hasSecondary : Bool
  secondaryColumn : Option String
  secondaryDirection : Option String
deriving DecidableEq, Repr

/-- JS truthiness of a possibly-missing string: `undefined` and `''` are
falsy. -/
def truthyS (o : Option String) : Bool :=
  match o with
  | none => false
  | some s => s ≠ ""

/-- A possibly-missing string read as a string (missing = `undefined`; the
uses below are guarded by `truthyS`). -/
def optStr (o : Option String) : String := o.getD ""

/-- The `sortItems` filter in `applySorting`: drop the `'none'` and separator
strings and objects with a falsy `column` or `direction`. -/
def sortItemsOf (cols : List ColEntry) : List SortItem :=
  cols.filterMap (fun e =>
    match e with
    | .item c d => if c ≠ "" ∧ d ≠ "" then some ⟨c, d⟩ else none
    | _ => none)

/-- Lexicographic comparison of character lists (JS compares strings by
UTF-16 code unit; the model compares by code point, which agrees on the
basic multilingual plane). -/
def charListLt : List Char → List Char → Bool
  | [], [] => false
  | [], _ :: _ => true
  | _ :: _, [] => false
  | a :: as, b :: bs => if a < b then true else if b < a then false else charListLt as bs

/-- JS `s < t` on strings. -/
def jsStrLt (s t : String) : Bool :=
  charListLt s.data t.data

/-- JS abstract relational comparison `a < b` on row values: string/string
compares lexicographically, otherwise both sides go
through `ToNumber` and the comparison is numeric, `false` when either side
is NaN. -/
def jsLt (a b : JsVal) : Bool :=
  match a, b with
  | .str s, .str t => jsStrLt s t
  | a, b =>
    let na := match a with | .num q => some q | .str s => strToNumber s
    let nb := match b with | .num q => some q | .str s => strToNumber s
    match na, nb with
    | some x, some y => decide (x < y)
    | _, _ => false

/-- JS `valueA < valueB` where either side may be `undefined` (a missing
field): `undefined` converts to NaN, so every comparison involving it is
`false`. -/
def jsLtOpt (a b : Option JsVal) : Bool :=
  match a, b with
  | some x, some y => jsLt x y
  | _, _ => false

/-- One level of the multi-column comparator in `applySorting`: `-1/0/1`
from `<`/`>` on the two rows' values at the level's column, negated for
`desc` direction. -/
def levelCmp (it : SortItem) (a b : Row) : ℤ :=
  let valueA := rowGet a it.column
  let valueB := rowGet b it.column
  let result : ℤ := if jsLtOpt valueA valueB then -1 else if jsLtOpt valueB valueA then 1 else 0
  if it.direction = "desc" then -result else result

/-- The full multi-column comparator of `applySorting`: first non-zero level
result, in priority order; 0 when every level ties. -/
def rowCmp (items : List SortItem) (a b : Row) : ℤ :=
  match items with
  | [] => 0
  | it :: rest =>
    let result := levelCmp it a b
    if result ≠ 0 then result else rowCmp rest a b

/-- The `le` relation fed to the stable sort: comparator result at most 0. -/
def rowLe (items : List SortItem) (a b : Row) : Bool :=
  decide (rowCmp items a b ≤ 0)

/-- Fuel-indexed merge of two lists (kernel-reducible clone of
`List.merge`; the fuel is only there to make the recursion structural). -/
def mergeFuel (le : Row → Row → Bool) : ℕ → List Row → List Row → List Row
  | _, [], ys => ys
  | _, x :: xs, [] => x :: xs
  | 0, x :: xs, _ :: _ => x :: xs
  | n + 1, x :: xs, y :: ys =>
    if le x y then x :: mergeFuel le n xs (y :: ys) else y :: mergeFuel le n (x :: xs) ys

/-- Fuel-indexed stable merge sort (kernel-reducible clone of
`List.mergeSort`, splitting at `(length+1)/2` like `List.splitInTwo`). -/
def sortFuel (le : Row → Row → Bool) : ℕ → List Row → List Row
  | _, [] => []
  | _, [a] => [a]
  | 0, a :: b :: l => a :: b :: l
  | n + 1, a :: b :: l =>
    let L := a :: b :: l
    let k := (L.length + 1) / 2
    mergeFuel le L.length (sortFuel le n (L.take k)) (sortFuel le n (L.drop k))

/-- Stable sort of rows by a `le` relation, the model of
`rows.sort(comparator)` (see the header note: exact for consistent
comparators, the chosen model otherwise). -/
def jsSort (le : Row → Row → Bool) (rows : List Row) : List Row :=
  sortFuel le rows.length rows

/-- The legacy-format comparator of `applySorting` (primary column, optional
secondary column when the primary ties). -/
def legacyCmp (cfg : SortingConfig) (a b : Row) : ℤ :=
  let pc := optStr cfg.primaryColumn
  let primaryA := rowGet a pc
  let primaryB := rowGet b pc
  let pr : ℤ := if jsLtOpt primaryA primaryB then -1 else if jsLtOpt primaryB primaryA then 1 else 0
  let primaryResult := if optStr cfg.primaryDirection = "desc" then -pr else pr
  if primaryResult = 0 ∧ cfg.hasSecondary ∧ truthyS cfg.secondaryColumn then
    let sc := optStr cfg.secondaryColumn
    let secondaryA := rowGet a sc
    let secondaryB := rowGet b sc
    let sr : ℤ :=
      if jsLtOpt secondaryA secondaryB then -1 else if jsLtOpt secondaryB secondaryA then 1 else 0
    if optStr cfg.secondaryDirection = "desc" then -sr else sr
  else primaryResult

/-- `applySorting(rows, sortingConfig)` from `renderers.js`: the `columns`
format returns the rows unchanged on the `'none'` sentinel, an empty array,
or no effective sort items, and otherwise sorts by the multi-column
comparator; without `columns` the legacy format applies. -/
def applySorting (rows : List Row) (ocfg : Option SortingConfig) : List Row :=
  match ocfg with
  | some cfg =>
    match cfg.columns with
    | some cols =>
      if cols.contains ColEntry.noneE ∨ cols.isEmpty then rows
      else
        let items := sortItemsOf cols
        if items.isEmpty then rows
        else jsSort (rowLe items) rows
    | none =>
      if cfg.enabled ∧ truthyS cfg.primaryColumn then
        jsSort (fun a b => decide (legacyCmp cfg a b ≤ 0)) rows
      else rows
  | none => rows

/-- The sorted rows computed by `renderOutput`: `applySorting` is invoked
only when `answers.sorting?.columns` is truthy and does not contain
`'none'`. -/
def renderSortedRows (rows : List Row) (sorting : Option SortingConfig) : List Row :=
  match sorting with
  | some cfg =>
    match cfg.columns with
    | some cols => if cols.contains ColEntry.noneE then rows else applySorting rows (some cfg)
    | none => rows
  | none => rows

/-- The state of one interactive paginated view
(`displayTableWithPagination`): the array passed as `originalRows`, the
rows currently paginated, and the current page index. -/
structure PageSession where
  originalRows : List Row
  filteredRows : List Row
  page : ℕ
deriving DecidableEq, Repr

/-- The session state at the start of a table rendering (`renderOutput`
table branch).  The filter state is empty at this point (it is cleared on
every terminal transition of the previous session), so
`applyAllFilters(rows)` returns the very array object `rows`, and
`applySorting` sorts that array in place; the `originalRows` parameter of
`displayTableWithPagination` therefore aliases the sorted array.  The model
reflects the alias by using the sorted rows for both fields. -/
def startTableSession (rows : List Row) (sorting : Option SortingConfig) : PageSession :=
  let s := renderSortedRows (applyAllFilters emptyFilters rows) sorting
  ⟨s, s, 0⟩

/-- The filter-command transition of `displayTableWithPagination` (`fq`,
`fc` or `fx` input): with the updated filter state, the filters are re-run
over `originalRows` and pagination restarts from the first page
(the recursive `displayTableWithPagination(originalRows, newFilteredRows)`
call starts with `currentPage = 0`). -/
def filterCommand (s : PageSession) (updated : FilterState) : PageSession :=
  ⟨s.originalRows, applyAllFilters updated s.originalRows, 0⟩

/-- `rowsPerPage` in `displayTableWithPagination`. -/
def rowsPerPage : ℕ := 50

/-- `filteredRows.slice(startIndex, endIndex)` for a page. -/
def pageSlice (rows : List Row) (page : ℕ) : List Row :=
  (rows.drop (page * rowsPerPage)).take rowsPerPage

/-- `Math.round(value * 1000) / 1000`: round to 3 decimal places, halves
toward positive infinity. -/
def round3 (q : ℚ) : ℚ :=
  ((⌊q * 1000 + 1 / 2⌋ : ℤ) : ℚ) / 1000

/-- The display formatting of one field value: non-integer numbers are
rounded to 3 decimal places, everything else passes through. -/
def fmtVal (v : JsVal) : JsVal :=
  match v with
  | .num q => if q.den = 1 then .num q else .num (round3 q)
  | .str s => .str s

/-- The display formatting of one row: a fresh object with every field
value formatted (`formattedRow` in `displayTableWithPagination`). -/
def formatRow (r : Row) : Row :=
  r.map (fun p => (p.1, fmtVal p.2))

/-- One page display step of `displayTableWithPagination`: the formatted
rows handed to `console.table`, paired with the backing row array after the
step (the formatting writes into fresh objects only, so the backing array
is returned untouched). -/
def displayTablePage (rows : List Row) (page : ℕ) : List Row × List Row :=
  ((pageSlice rows page).map formatRow, rows)

/-- Decidable equality for `Except` results (used to state concrete
normalizer outcomes). -/
instance {e a : Type} [DecidableEq e] [DecidableEq a] : DecidableEq (Except e a) := fun x y =>
  match x, y with
  | .ok u, .ok v => decidable_of_iff (u = v) (by simp)
  | .error u, .error v => decidable_of_iff (u = v) (by simp)
  | .ok _, .error _ => isFalse (by simp)
  | .error _, .ok _ => isFalse (by simp)

/-- An `orderBys` entry (`{metric?, dimension?, desc?}`), carried through the
normalizer verbatim. -/
structure OrderBySpec where
  metric : Option String
  dimension : Option String
  desc : Bool
deriving DecidableEq, Repr

/-- A preset definition from the configuration (only the fields the
normalizer reads). -/
structure PresetDef where
  id : String
  metrics : List String
  dimensions : List String
  orderBys : Option (List OrderBySpec)
  limit : Option ℤ
  filters : Option (List String)
deriving DecidableEq, Repr

/-- The date range produced by `getDateRange`: a pair of strings, either of
which may be `undefined` on the custom path. -/
structure DateRangeStrs where
  start : Option String
  end_ : Option String
deriving DecidableEq, Repr

/-- The user/API request fields read by the normalizer (`answers`). -/
structure Answers where
  source : String
  mode : String
  preset : Option String
  metrics : Option (List String)
  dimensions : Option (List String)
  orderBys : Option (List OrderBySpec)
  limit : Option ℤ
  filters : Option (List String)
  dateRangeType : String
  customStartDate : Option String
  customEndDate : Option String
deriving DecidableEq, Repr

/-- The configuration fields read by the normalizer (`cfg.presets` and
`cfg.limits.maxRows`; the shipped `config.js` sets `maxRows` to 100000). -/
structure CfgModel where
  presets : List PresetDef
  maxRows : ℤ
deriving DecidableEq, Repr

/-- The canonical query descriptor built by `normalize`
(`NormalizedQuery` in `query-runner.js`). -/
structure NormalizedQuery where
  source : String
  dateRange : Option DateRangeStrs
  metrics : List String
  dimensions : List String
  orderBys : List OrderBySpec
  limit : ℤ
  filters : List String
deriving DecidableEq, Repr

/-- A proleptic Gregorian calendar date. -/
structure DateYMD where
  y : ℕ
  m : ℕ
  d : ℕ
deriving DecidableEq, Repr

/-- Gregorian leap year. -/
def isLeap (y : ℕ) : Bool :=
  (y % 4 = 0 ∧ y % 100 ≠ 0) ∨ y % 400 = 0

/-- Number of days in a month. -/
def daysInMonth (y m : ℕ) : ℕ :=
  if m = 2 then (if isLeap y then 29 else 28)
  else if m = 4 ∨ m = 6 ∨ m = 9 ∨ m = 11 then 30
  else 31

/-- Civil date from a day number (days since 1970-01-01, Gregorian
calendar; the standard era/day-of-era computation). -/
def civilFromDays (z0 : ℤ) : DateYMD :=
  let z := z0 + 719468
  let era := Int.fdiv z 146097
  let doe := (z - era * 146097).toNat
  let yoe := (doe - doe / 1460 + doe / 36524 - doe / 146096) / 365
  let y : ℤ := era * 400 + yoe
  let doy := doe - (365 * yoe + yoe / 4 - yoe / 100)
  let mp := (5 * doy + 2) / 153
  let d := doy - (153 * mp + 2) / 5 + 1
  let m := if mp < 10 then mp + 3 else mp - 9
  ⟨(if m ≤ 2 then y + 1 else y).toNat, m, d⟩

/-- `date.toISOString().split('T')[0]` (`formatDate` in `query-runner.js`),
for a date given as a day number. -/
def formatDN (z : ℤ) : String :=
  let c := civilFromDays z
  padZeros (toString c.y) 4 ++ "-" ++ padZeros (toString c.m) 2 ++ "-" ++ padZeros (toString c.d) 2

/-- All characters are decimal digits. -/
def allDigits (s : String) : Bool :=
  s.data.all Char.isDigit

/-- The ECMAScript `Date` parser (`new Date(string)`), restricted to the
specification-mandated Date Time String Format without time components:
`YYYY`, `YYYY-MM` or `YYYY-MM-DD`, with in-range month and day; absent
components default to 1.  Implementation-specific fallback formats
(e.g. `2024/01/05`) and date-time forms are not modelled.  `none` stands
for an invalid date (`NaN` time value). -/
def parseJsDate (s : String) : Option DateYMD :=
  let checked (y m d : ℕ) : Option DateYMD :=
    if 1 ≤ m ∧ m ≤ 12 ∧ 1 ≤ d ∧ d ≤ daysInMonth y m then some ⟨y, m, d⟩ else none
  match splitChar s '-' with
  | [ys] =>
    if ys.length = 4 ∧ allDigits ys then checked (digitsToNat ys.data) 1 1 else none
  | [ys, ms] =>
    if ys.length = 4 ∧ allDigits ys ∧ ms.length = 2 ∧ allDigits ms then
      checked (digitsToNat ys.data) (digitsToNat ms.data) 1
    else none
  | [ys, ms, ds] =>
    if ys.length = 4 ∧ allDigits ys ∧ ms.length = 2 ∧ allDigits ms ∧ ds.length = 2 ∧ allDigits ds then
      checked (digitsToNat ys.data) (digitsToNat ms.data) (digitsToNat ds.data)
    else none
  | _ => none

/-- Comparison of two dates (`startDate > endDate` compares the time
values, which for date-only forms is the lexicographic order on
year/month/day). -/
def dateLt (a b : DateYMD) : Bool :=
  decide (a.y < b.y) || (a.y == b.y && (decide (a.m < b.m) || (a.m == b.m && decide (a.d < b.d))))

/-- The `YYYY-MM-DD` input mask enforced by the interactive prompts
(`/^\d{4}-\d{2}-\d{2}$/` in `prompts.js`). -/
def isYYYYMMDD (s : String) : Bool :=
  match splitChar s '-' with
  | [ys, ms, ds] => ys.length = 4 ∧ allDigits ys ∧ ms.length = 2 ∧ allDigits ms ∧ ds.length = 2 ∧ allDigits ds
  | _ => false

/-- JS truthiness for the date strings in `validateDateRange`
(`!start`): missing or empty. -/
def falsyStr (o : Option String) : Bool :=
  match o with
  | none => true
  | some s => s == ""

/-- `validateDateRange(dateRange)` from `validators.js`: requires both
dates present, both parseable by `new Date`, and start not after end;
returns the error message, or `none` (JS `null`) when valid. -/
def validateDateRange (dr : DateRangeStrs) : Option String :=
  if falsyStr dr.start ∨ falsyStr dr.end_ then some "Start and end dates are required"
  else
    match parseJsDate (optStr dr.start), parseJsDate (optStr dr.end_) with
    | none, _ => some "Invalid start date format"
    | some _, none => some "Invalid end date format"
    | some ds, some de => if dateLt de ds then some "Start date must be before end date" else none

/-- `validateQuery(query)` from `validators.js`: collects the metric,
dimension and date-range problems into one error list, in that order. -/
def validateQuery (q : NormalizedQuery) : List String :=
  (if q.metrics.isEmpty then ["At least one metric is required"] else []) ++
  (if q.dimensions.isEmpty then ["At least one dimension is required"] else []) ++
  (match q.dateRange with
   | none => ["Date range is required"]
   | some dr =>
     match validateDateRange dr with
     | some e => [e]
     | none => [])

/-- `getDateRange(answers)` from `query-runner.js`, with "today" passed as
a day number: the `last7`/`last28`/`last90` shorthands subtract calendar
days from today; `custom` passes the user strings through; anything else
throws. -/
def getDateRange (todayDN : ℤ) (a : Answers) : Except String DateRangeStrs :=
  if a.dateRangeType = "last7" then .ok ⟨some (formatDN (todayDN - 7)), some (formatDN todayDN)⟩
  else if a.dateRangeType = "last28" then .ok ⟨some (formatDN (todayDN - 28)), some (formatDN todayDN)⟩
  else if a.dateRangeType = "last90" then .ok ⟨some (formatDN (todayDN - 90)), some (formatDN todayDN)⟩
  else if a.dateRangeType = "custom" then .ok ⟨a.customStartDate, a.customEndDate⟩
  else .error ("Unknown date range type: " ++ a.dateRangeType)

/-- JS `x || 1000` on the limit field: `undefined`, `0` (and `NaN`, not
modelled) fall back to the default. -/
def jsOrInt (o : Option ℤ) (dflt : ℤ) : ℤ :=
  match o with
  | some v => if v = 0 then dflt else v
  | none => dflt

/-- `normalize(answers, cfg)` from `query-runner.js` (named `normalizeQuery`
here because Mathlib already declares a root-level `normalize`): preset mode looks the
preset up by id (throwing when absent, with `undefined` interpolated for a
missing id) and takes its fields; ad-hoc mode takes the request fields with
empty-list defaults; both resolve the date range and cap the limit at
`cfg.limits.maxRows` after the `|| 1000` default. -/
def normalizeQuery (todayDN : ℤ) (a : Answers) (cfg : CfgModel) : Except String NormalizedQuery :=
  if a.mode = "preset" then
    match a.preset.bind (fun pid => cfg.presets.find? (fun p => p.id == pid)) with
    | none => .error ("Preset not found: " ++ a.preset.getD "undefined")
    | some preset => do
      let dr ← getDateRange todayDN a
      pure
        { source := a.source
          dateRange := some dr
          metrics := preset.metrics
          dimensions := preset.dimensions
          orderBys := preset.orderBys.getD []
          limit := min (jsOrInt preset.limit 1000) cfg.maxRows
          filters := preset.filters.getD [] }
  else do
    let dr ← getDateRange todayDN a
    pure
      { source := a.source
        dateRange := some dr
        metrics := a.metrics.getD []
        dimensions := a.dimensions.getD []
        orderBys := a.orderBys.getD []
        limit := min (jsOrInt a.limit 1000) cfg.maxRows
        filters := a.filters.getD [] }

/-- `runQuery(answers, cfg)` from `query-runner.js`, up to the external
fetcher boundary: normalize, throw an aggregated message when
`validateQuery` reports errors, then route by source (the successful case
returns the descriptor handed to the data source). -/
def runQueryValidated (todayDN : ℤ) (a : Answers) (cfg : CfgModel) :
    Except String NormalizedQuery := do
  let q ← normalizeQuery todayDN a cfg
  let errs := validateQuery q
  if errs.isEmpty then
    if q.source = "searchconsole" ∨ q.source = "bigquery" then pure q
    else .error ("Unsupported source: " ++ q.source)
  else .error ("Query validation failed: " ++ String.intercalate ", " errs)

/-- The operator dispatch of `applyCompareFilter`, on an already-parsed
numeric value (the `switch (operator)` block). -/
def opCompare (op : String) (numericValue value : ℚ) : Bool :=
  if op = ">=" then decide (numericValue ≥ value)
  else if op = "<=" then decide (numericValue ≤ value)
  else if op = ">" then decide (numericValue > value)
  else if op = "<" then decide (numericValue < value)
  else if op = "=" then numericValue == value
  else true

/-- The conjunction of all active filters on one row: every stored string
filter and every stored numeric filter must pass. -/
def filterPasses (st : FilterState) (r : Row) : Bool :=
  (st.queryFilters.all fun f => queryFilterPred f.field f.op f.value r) &&
  (st.compareFilters.all fun f => compareFilterPred f.field f.op f.value r)

/-- A one-level ascending sort configuration on column `a` (fixture for the
concrete instances below). -/
def sortColA : SortingConfig :=
  { columns := some [ColEntry.item "a" "asc"], enabled := false, primaryColumn := none,
    primaryDirection := none, hasSecondary := false, secondaryColumn := none,
    secondaryDirection := none }

/-- Three rows whose `a` values compare in a strict cycle under the JS
relational comparison: `20 < "100"` (numeric), `"100" < "3"`
(lexicographic), `"3" < 20` (numeric). -/
def rowsCycle : List Row := [[("a", JsVal.num 20)], [("a", JsVal.str "100")], [("a", JsVal.str "3")]]

/-- Three rows mixing a numeric-looking string, a plain string and a number
at column `a`. -/
def rowsMixed : List Row := [[("a", JsVal.str "5")], [("a", JsVal.str "b")], [("a", JsVal.num 3)]]

/-- The string filter `a<>5` (not-equal-exact). -/
def filterNotFive : FilterState :=
  { queryFilters := [{ field := "a", op := "<>", value := "5" }], compareFilters := [] }

/-- Two rows with numeric `a` values (fixture for the witnesses). -/
def rowsNums : List Row := [[("a", JsVal.num 2)], [("a", JsVal.num 1)]]

/-- The numeric filter `a>=2`. -/
def filterGeTwo : FilterState :=
  { queryFilters := [], compareFilters := [{ field := "a", op := ">=", value := 2 }] }

/-- An ad-hoc request with an unknown date-range shorthand and empty metric
and dimension lists (two further validation problems). -/
def answersBadShorthand : Answers :=
  { source := "searchconsole", mode := "adhoc", preset := none, metrics := some [],
    dimensions := some [], orderBys := some [], limit := some 100, filters := some [],
    dateRangeType := "bogus", customStartDate := none, customEndDate := none }

/-- The configuration model matching the shipped `config.js` limits (no
presets needed by these instances). -/
def cfgShip : CfgModel := { presets := [], maxRows := 100000 }

/-- An ad-hoc custom-range request whose start date is the ES-mandated ISO
form `YYYY-MM`, not `YYYY-MM-DD`. -/
def answersShortIso : Answers :=
  { source := "searchconsole", mode := "adhoc", preset := none, metrics := some ["clicks"],
    dimensions := some ["date"], orderBys := some [], limit := some 100, filters := some [],
    dateRangeType := "custom", customStartDate := some "2024-01",
    customEndDate := some "2024-03-05" }

/-- The descriptor the normalizer produces for `answersShortIso`. -/
def descriptorShortIso : NormalizedQuery :=
  { source := "searchconsole", dateRange := some ⟨some "2024-01", some "2024-03-05"⟩,
    metrics := ["clicks"], dimensions := ["date"], orderBys := [], limit := 100, filters := [] }

/-- An ad-hoc custom-range request with a zero (falsy) requested limit. -/
def answersZeroLimit : Answers :=
  { source := "searchconsole", mode := "adhoc", preset := none, metrics := some ["clicks"],
    dimensions := some ["date"], orderBys := some [], limit := some 0, filters := some [],
    dateRangeType := "custom", customStartDate := some "2024-01-01",
    customEndDate := some "2024-03-05" }

/-- An ad-hoc custom-range request with three simultaneous validation
problems: empty metrics, empty dimensions, start date after end date. -/
def answersAllBad : Answers :=
  { source := "searchconsole", mode := "adhoc", preset := none, metrics := some [],
    dimensions := some [], orderBys := some [], limit := some 100, filters := some [],
    dateRangeType := "custom", customStartDate := some "2024-05-05",
    customEndDate := some "2024-01-01" }

/-- The descriptor `normalize` builds for `answersAllBad` (before
validation rejects it). -/
def descAllBad : NormalizedQuery :=
  { source := "searchconsole", dateRange := some ⟨some "2024-05-05", some "2024-01-01"⟩,
    metrics := [], dimensions := [], orderBys := [], limit := 100, filters := [] }

/-- The comparator lifted to the subtype of members of a list (used to turn
list-local consistency hypotheses into the global ones the `mergeSort`
lemmas need). -/
def subLe {α : Type} (le : α → α → Bool) (l : List α) :
    {x // x ∈ l} → {x // x ∈ l} → Bool :=
  fun a b => le a.1 b.1

theorem isPrefixOf_self (l : List Char) : l.isPrefixOf l = true := by
  induction l with
  | nil => rfl
  | cons a t ih => simp [List.isPrefixOf, ih]

theorem jsIncludes_self (s : String) : jsIncludes s s = true := by
  unfold jsIncludes
  cases h : s.data with
  | nil => simp [inclAux]
  | cons c t => simp [inclAux, isPrefixOf_self]

theorem foldl_applyQueryFilter (fs : List QueryFilter) (rows : List Row) :
    fs.foldl (fun acc f => applyQueryFilter acc f.field f.op f.value) rows
      = rows.filter (fun r => fs.all fun f => queryFilterPred f.field f.op f.value r) := by
  induction fs generalizing rows with
  | nil => simp
  | cons f fs ih =>
    rw [List.foldl_cons, ih]
    unfold applyQueryFilter
    rw [List.filter_filter]
    simp only [List.all_cons]
    congr 1
    funext r
    exact Bool.and_comm _ _

theorem foldl_applyCompareFilter (fs : List CompareFilter) (rows : List Row) :
    fs.foldl (fun acc f => applyCompareFilter acc f.field f.op f.value) rows
      = rows.filter (fun r => fs.all fun f => compareFilterPred f.field f.op f.value r) := by
  induction fs generalizing rows with
  | nil => simp
  | cons f fs ih =>
    rw [List.foldl_cons, ih]
    unfold applyCompareFilter
    rw [List.filter_filter]
    simp only [List.all_cons]
    congr 1
    funext r
    exact Bool.and_comm _ _

theorem applyAllFilters_eq_filter (st : FilterState) (rows : List Row) :
    applyAllFilters st rows = rows.filter (filterPasses st) := by
  unfold applyAllFilters filterPasses
  rw [foldl_applyQueryFilter, foldl_applyCompareFilter, List.filter_filter]
  congr 1
  funext r
  exact Bool.and_comm _ _

theorem applyAllFilters_empty (rows : List Row) : applyAllFilters emptyFilters rows = rows := rfl

/-- Claim C5: for every row array and filter state, applying all filters is
monotonic: appending one more filter (string or numeric) to the state
yields a sublist of (hence a subset of, never enlarging) the rows that
survive the state without it. -/
theorem claim5_filters_monotonic (st : FilterState) (rows : List Row)
    (qf : QueryFilter) (cf : CompareFilter) :
    (applyAllFilters (addQueryFilter st qf) rows).Sublist (applyAllFilters st rows) ∧
    (applyAllFilters (addCompareFilter st cf) rows).Sublist (applyAllFilters st rows) := by
  rw [applyAllFilters_eq_filter, applyAllFilters_eq_filter, applyAllFilters_eq_filter]
  constructor <;>
    refine List.monotone_filter_right rows (fun r h => ?_) <;>
    simp only [filterPasses, addQueryFilter, addCompareFilter, List.all_append,
      Bool.and_eq_true] at h ⊢ <;>
    tauto

theorem compareFilterPred_eq (field op : String) (x : ℚ) (r : Row) :
    compareFilterPred field op x r =
      match parseNumericValue (jsString (rowGet r field)) with
      | none => false
      | some n => opCompare op n x := rfl

/-- Claim C6: a row whose stringified field value holds no parseable numeric
token is excluded by the numeric filter for every operator and threshold
(including `=` with 0); otherwise membership in the filtered rows is
decided by comparing the first extracted token with the threshold under the
chosen operator. -/
theorem claim6_numeric_filter_token (rows : List Row) (field op : String) (x : ℚ) (r : Row) :
    (parseNumericValue (jsString (rowGet r field)) = none →
      r ∉ applyCompareFilter rows field op x) ∧
    (∀ n, parseNumericValue (jsString (rowGet r field)) = some n →
      (r ∈ applyCompareFilter rows field op x ↔ r ∈ rows ∧ opCompare op n x = true)) := by
  constructor
  · intro h hmem
    have := (List.mem_filter.mp hmem).2
    rw [compareFilterPred_eq, h] at this
    exact Bool.false_ne_true this
  · intro n h
    constructor
    · intro hmem
      obtain ⟨h1, h2⟩ := List.mem_filter.mp hmem
      rw [compareFilterPred_eq, h] at h2
      exact ⟨h1, h2⟩
    · intro ⟨h1, h2⟩
      refine List.mem_filter.mpr ⟨h1, ?_⟩
      rw [compareFilterPred_eq, h]
      exact h2

theorem claim6_witness :
    (([("x", JsVal.str "abc")] : Row) ∉ applyCompareFilter [[("x", JsVal.str "abc")]] "x" "=" 0) ∧
    (([("x", JsVal.str "20x")] : Row) ∈ applyCompareFilter [[("x", JsVal.str "20x")]] "x" ">=" 10) :=
  ⟨(claim6_numeric_filter_token [[("x", JsVal.str "abc")]] "x" "=" 0 _).1 (by decide),
   ((claim6_numeric_filter_token [[("x", JsVal.str "20x")]] "x" ">=" 10 _).2 20 (by decide)).mpr
     ⟨by decide, by decide⟩⟩

/-- Claim C10: the string filter trims surrounding whitespace from both the
stringified field value and the comparison value before the
case-insensitive comparison, for all four operators: a field value and a
comparison value equal up to surrounding whitespace and case are accepted
by `=`, match under `*`, and are rejected by the two negated operators; and
replacing the comparison value by one with the same trim never changes any
operator's verdict. -/
theorem claim10_trim_case_insensitive (r : Row) (field w : String)
    (h : jsToLower (jsTrim (jsString (rowGet r field))) = jsToLower (jsTrim w)) :
    queryFilterPred field "=" w r = true ∧
    queryFilterPred field "*" w r = true ∧
    queryFilterPred field "<>" w r = false ∧
    queryFilterPred field "<*>" w r = false ∧
    (∀ op w2, jsTrim w2 = jsTrim w → queryFilterPred field op w2 r = queryFilterPred field op w r) := by
  refine ⟨?_, ?_, ?_, ?_, ?_⟩
  · simp [queryFilterPred, h]
  · simp [queryFilterPred, h, jsIncludes_self]
  · simp [queryFilterPred, h]
  · simp [queryFilterPred, h, jsIncludes_self]
  · intro op w2 hw
    simp only [queryFilterPred, hw]

theorem claim10_witness :
    queryFilterPred "name" "=" "acme  " [("name", JsVal.str "  AcMe ")] = true ∧
    queryFilterPred "name" "*" "acme  " [("name", JsVal.str "  AcMe ")] = true ∧
    queryFilterPred "name" "<>" "acme  " [("name", JsVal.str "  AcMe ")] = false ∧
    queryFilterPred "name" "<*>" "acme  " [("name", JsVal.str "  AcMe ")] = false :=
  let h := claim10_trim_case_insensitive [("name", JsVal.str "  AcMe ")] "name" "acme  "
    (by decide)
  ⟨h.1, h.2.1, h.2.2.1, h.2.2.2.1⟩

/-- Claim C2 (amended): in the multi-column comparator, a row whose value at
the level's column is undefined (missing field) compares as EQUAL (level
result 0) to every row — with either direction — so the comparison falls
through to later sort levels; missing-value rows are not ordered before
defined-value rows. -/
theorem claim2_missing_value_ties (it : SortItem) (a b : Row)
    (h : rowGet a it.column = none ∨ rowGet b it.column = none) :
    levelCmp it a b = 0 := by
  have hlt : ∀ (x y : Option JsVal), x = none ∨ y = none → jsLtOpt x y = false := by
    intro x y hxy
    cases x <;> cases y <;> simp_all [jsLtOpt]
  simp only [levelCmp]
  rw [hlt _ _ h, hlt _ _ (Or.symm h)]
  simp

theorem claim2_witness : levelCmp ⟨"b", "asc"⟩ [("a", JsVal.num 1)] [("b", JsVal.num 2)] = 0 :=
  claim2_missing_value_ties ⟨"b", "asc"⟩ [("a", JsVal.num 1)] [("b", JsVal.num 2)]
    (Or.inl (by decide))

/-- Claim C2 counterexample: a row with no `a` field compares as 0 (not
strictly less) against a row with `a = 3` at an ascending `a` level, and
the stable sort leaves the missing-value row AFTER the defined-value row
rather than ordering it first. -/
theorem claim2_counterexample :
    levelCmp ⟨"a", "asc"⟩ ([] : Row) [("a", JsVal.num 3)] = 0 ∧
    ¬ levelCmp ⟨"a", "asc"⟩ ([] : Row) [("a", JsVal.num 3)] < 0 ∧
    applySorting [[("a", JsVal.num 3)], ([] : Row)] (some sortColA)
      = [[("a", JsVal.num 3)], ([] : Row)] :=
  ⟨by decide, by decide, by decide⟩

theorem except_bind_ok {e α β : Type} (x : Except e α) (f : α → Except e β) (b : β) :
    (x >>= f) = .ok b ↔ ∃ a, x = .ok a ∧ f a = .ok b := by
  cases x <;> simp [Bind.bind, Except.bind]

theorem jsOrInt_ne_zero (o : Option ℤ) : jsOrInt o 1000 ≠ 0 := by
  unfold jsOrInt
  cases o with
  | none => decide
  | some v =>
    by_cases hv : v = 0
    · simp [hv]
    · simp [hv]

/-- Claim C9: the normalizer replaces a falsy (unspecified or zero)
requested/preset limit by the default 1000 before capping at the configured
maximum, so the descriptor limit is `min(limit if truthy else 1000,
maxRows)` and, the configured maximum being positive, is never 0. -/
theorem claim9_limit_default_and_cap (todayDN : ℤ) (a : Answers) (cfg : CfgModel)
    (q : NormalizedQuery) (h : normalizeQuery todayDN a cfg = .ok q) :
    (a.mode = "preset" →
      ∀ p, (a.preset.bind fun pid => cfg.presets.find? fun pr => pr.id == pid) = some p →
        q.limit = min (jsOrInt p.limit 1000) cfg.maxRows) ∧
    (a.mode ≠ "preset" → q.limit = min (jsOrInt a.limit 1000) cfg.maxRows) ∧
    (0 < cfg.maxRows → q.limit ≠ 0) := by
  have hlim : ∃ o : Option ℤ, q.limit = min (jsOrInt o 1000) cfg.maxRows ∧
      (a.mode = "preset" →
        ∀ p, (a.preset.bind fun pid => cfg.presets.find? fun pr => pr.id == pid) = some p →
          q.limit = min (jsOrInt p.limit 1000) cfg.maxRows) ∧
      (a.mode ≠ "preset" → q.limit = min (jsOrInt a.limit 1000) cfg.maxRows) := by
    unfold normalizeQuery at h
    by_cases hm : a.mode = "preset"
    · rw [if_pos hm] at h
      cases hfind : (a.preset.bind fun pid => cfg.presets.find? fun pr => pr.id == pid) with
      | none => rw [hfind] at h; exact absurd h (by simp)
      | some preset =>
        rw [hfind] at h
        rw [except_bind_ok] at h
        obtain ⟨dr, _, hq⟩ := h
        have h3 := Except.ok.inj hq
        subst h3
        refine ⟨preset.limit, rfl, fun _ p hp => ?_, fun hcon => absurd hm hcon⟩
        cases hp
        rfl
    · rw [if_neg hm] at h
      rw [except_bind_ok] at h
      obtain ⟨dr, _, hq⟩ := h
      have h3 := Except.ok.inj hq
      subst h3
      exact ⟨a.limit, rfl, fun hcon => absurd hcon hm, fun _ => rfl⟩
  obtain ⟨o, ho, h1, h2⟩ := hlim
  refine ⟨h1, h2, fun hpos => ?_⟩
  rw [ho]
  rcases min_choice (jsOrInt o 1000) cfg.maxRows with hc | hc <;> rw [hc]
  · exact jsOrInt_ne_zero o
  · omega

theorem claim9_witness :
    (normalizeQuery 0 answersZeroLimit cfgShip).map (fun q => q.limit) = .ok 1000 ∧
    min (jsOrInt (some 0) 1000) 100000 = 1000 ∧ (1000 : ℤ) ≠ 0 := by
  have h : normalizeQuery 0 answersZeroLimit cfgShip =
      .ok { source := "searchconsole",
            dateRange := some ⟨some "2024-01-01", some "2024-03-05"⟩,
            metrics := ["clicks"], dimensions := ["date"], orderBys := [],
            limit := 1000, filters := [] } := by decide
  have h2 := (claim9_limit_default_and_cap 0 answersZeroLimit cfgShip _ h).2.1 (by decide)
  refine ⟨by rw [h]; rfl, ?_, by decide⟩
  have : (1000 : ℤ) = min (jsOrInt answersZeroLimit.limit 1000) cfgShip.maxRows := h2
  exact this ▸ rfl

theorem rowGet_formatRow (r : Row) (k : String) :
    rowGet (formatRow r) k = (rowGet r k).map fmtVal := by
  induction r with
  | nil => rfl
  | cons p t ih =>
    obtain ⟨k0, v⟩ := p
    by_cases hk : (k0 == k) = true
    · simp [rowGet, formatRow, List.find?, hk]
    · simp only [Bool.not_eq_true] at hk
      simp only [rowGet, formatRow, List.map_cons, List.find?, hk] at ih ⊢
      exact ih

theorem round3_mul_den (q : ℚ) : (round3 q * 1000).den = 1 := by
  unfold round3
  rw [div_mul_cancel₀]
  · exact Rat.den_intCast _
  · norm_num

theorem round3_close (q : ℚ) : round3 q - q ≤ 1 / 2000 ∧ q - round3 q < 1 / 2000 := by
  unfold round3
  have h1 := Int.floor_le (q * 1000 + 1 / 2)
  have h2 := Int.lt_floor_add_one (q * 1000 + 1 / 2)
  constructor <;> linarith

/-- Claim C8: display formatting maps every non-integer numeric field value
of a page's rows to its value rounded to 3 decimal places (a multiple of
1/1000 within 1/2000 of the original, halves rounding up), passes integer
and string values through unchanged, and leaves the backing row array —
the one the JSON/CSV export paths serialize — untouched. -/
theorem claim8_format_display_only (rows : List Row) (page : ℕ) :
    (displayTablePage rows page).1 = (pageSlice rows page).map formatRow ∧
    (displayTablePage rows page).2 = rows ∧
    (∀ r k, rowGet (formatRow r) k = (rowGet r k).map fmtVal) ∧
    (∀ q : ℚ, q.den ≠ 1 → fmtVal (.num q) = .num (round3 q) ∧
      (round3 q * 1000).den = 1 ∧ round3 q - q ≤ 1 / 2000 ∧ q - round3 q < 1 / 2000) ∧
    (∀ q : ℚ, q.den = 1 → fmtVal (.num q) = .num q) ∧
    (∀ s, fmtVal (.str s) = .str s) := by
  refine ⟨rfl, rfl, rowGet_formatRow, fun q hq => ?_, fun q hq => by simp [fmtVal, hq], fun s => rfl⟩
  exact ⟨by simp [fmtVal, hq], round3_mul_den q, (round3_close q).1, (round3_close q).2⟩

theorem claim8_witness :
    fmtVal (.num (mkRat 1 3)) = .num (round3 (mkRat 1 3)) ∧
    round3 (mkRat 1 3) - mkRat 1 3 ≤ 1 / 2000 ∧
    (displayTablePage [[("v", JsVal.num (mkRat 1 3))]] 0).2 = [[("v", JsVal.num (mkRat 1 3))]] :=
  ⟨((claim8_format_display_only [] 0).2.2.2.1 (mkRat 1 3) (by decide)).1,
   ((claim8_format_display_only [] 0).2.2.2.1 (mkRat 1 3) (by decide)).2.2.1,
   (claim8_format_display_only [[("v", JsVal.num (mkRat 1 3))]] 0).2.1⟩

theorem validateDateRange_msgs (dr : DateRangeStrs) (e : String)
    (h : validateDateRange dr = some e) :
    e = "Start and end dates are required" ∨ e = "Invalid start date format" ∨
    e = "Invalid end date format" ∨ e = "Start date must be before end date" := by
  unfold validateDateRange at h
  split at h
  · simp_all
  · split at h
    · simp_all
    · simp_all
    · split at h <;> simp_all

theorem mem_iteList {α : Type} (c : Prop) [Decidable c] (x : α) (l : List α) :
    (x ∈ if c then l else []) ↔ c ∧ x ∈ l := by
  split <;> simp_all

/-- Claim C3 (amended): once `normalize` itself succeeds (known date-range
shorthand, preset found), validation problems are aggregated: the single
error lists every problem `validateQuery` finds, and that list contains the
metric problem iff metrics are empty, the dimension problem iff dimensions
are empty, and every date-range problem present; an unknown shorthand or a
missing preset instead aborts `normalize` at once with only that error, and
in every failure case no descriptor is produced. -/
theorem claim3_validation_aggregation (todayDN : ℤ) (a : Answers) (cfg : CfgModel)
    (q : NormalizedQuery) (h : normalizeQuery todayDN a cfg = .ok q) :
    (validateQuery q ≠ [] → runQueryValidated todayDN a cfg =
      .error ("Query validation failed: " ++ String.intercalate ", " (validateQuery q))) ∧
    ("At least one metric is required" ∈ validateQuery q ↔ q.metrics = []) ∧
    ("At least one dimension is required" ∈ validateQuery q ↔ q.dimensions = []) ∧
    (∀ dr e, q.dateRange = some dr → validateDateRange dr = some e →
      e ∈ validateQuery q) := by
  have hsplit : ∀ x, x ∈ validateQuery q ↔
      ((q.metrics.isEmpty ∧ x = "At least one metric is required") ∨
       (q.dimensions.isEmpty ∧ x = "At least one dimension is required") ∨
       x ∈ (match q.dateRange with
            | none => ["Date range is required"]
            | some dr =>
              match validateDateRange dr with
              | some e => [e]
              | none => [])) := by
    intro x
    unfold validateQuery
    rw [List.mem_append, List.mem_append, mem_iteList, mem_iteList]
    simp only [List.mem_singleton]
    tauto
  have hdate : ∀ x, (x ∈ (match q.dateRange with
      | none => ["Date range is required"]
      | some dr =>
        match validateDateRange dr with
        | some e => [e]
        | none => [])) →
      x = "Date range is required" ∨ x = "Start and end dates are required" ∨
      x = "Invalid start date format" ∨ x = "Invalid end date format" ∨
      x = "Start date must be before end date" := by
    intro x hx
    cases hq : q.dateRange with
    | none => rw [hq] at hx; simp at hx; exact Or.inl hx
    | some dr =>
      rw [hq] at hx
      cases hv : validateDateRange dr with
      | none => simp [hv] at hx
      | some e =>
        simp [hv] at hx
        subst hx
        exact Or.inr (validateDateRange_msgs dr _ hv)
  refine ⟨?_, ?_, ?_, ?_⟩
  · intro hne
    have hie : (validateQuery q).isEmpty = false := by
      cases hvq : validateQuery q with
      | nil => exact absurd hvq hne
      | cons x xs => rfl
    have hrun : runQueryValidated todayDN a cfg =
        (if (validateQuery q).isEmpty then
          (if q.source = "searchconsole" ∨ q.source = "bigquery" then Except.ok q
           else Except.error ("Unsupported source: " ++ q.source))
         else Except.error ("Query validation failed: " ++
           String.intercalate ", " (validateQuery q))) := by
      unfold runQueryValidated
      rw [h]
      rfl
    rw [hrun, hie]
    simp
  · constructor
    · intro hmem
      rcases (hsplit _).mp hmem with ⟨hm, _⟩ | ⟨_, habs⟩ | hmem3
      · exact List.isEmpty_iff.mp hm
      · exact absurd habs (by decide)
      · rcases hdate _ hmem3 with h5 | h5 | h5 | h5 | h5 <;> exact absurd h5 (by decide)
    · intro hm
      exact (hsplit _).mpr (Or.inl ⟨List.isEmpty_iff.mpr hm, rfl⟩)
  · constructor
    · intro hmem
      rcases (hsplit _).mp hmem with ⟨_, habs⟩ | ⟨hm, _⟩ | hmem3
      · exact absurd habs (by decide)
      · exact List.isEmpty_iff.mp hm
      · rcases hdate _ hmem3 with h5 | h5 | h5 | h5 | h5 <;> exact absurd h5 (by decide)
    · intro hm
      exact (hsplit _).mpr (Or.inr (Or.inl ⟨List.isEmpty_iff.mpr hm, rfl⟩))
  · intro dr e hdr hv
    refine (hsplit _).mpr (Or.inr (Or.inr ?_))
    simp [hdr, hv]

/-- Claim C3 counterexample: a request with an unknown date-range shorthand
AND empty metrics fails with only the shorthand error — the error does not
mention the metric problem, so the single error result does not list all
validation problems present in the request. -/
theorem claim3_counterexample :
    runQueryValidated 0 answersBadShorthand cfgShip =
      .error "Unknown date range type: bogus" ∧
    answersBadShorthand.metrics = some [] ∧
    jsIncludes "Unknown date range type: bogus" "metric" = false :=
  ⟨by decide, by decide, by decide⟩

theorem claim3_witness :
    runQueryValidated 0 answersAllBad cfgShip =
      .error ("Query validation failed: At least one metric is required, " ++
        "At least one dimension is required, Start date must be before end date") := by
  have h2 := (claim3_validation_aggregation 0 answersAllBad cfgShip descAllBad (by decide)).1
    (by decide)
  rw [h2]
  decide

/-- Claim C7 (amended): the custom date range is rejected iff either date is
missing/empty, fails to parse as a JS `Date`, or the start is after the
end; parseable inputs need NOT be in `YYYY-MM-DD` form (the ES-mandated ISO
prefixes such as `YYYY` and `YYYY-MM` are accepted).  The `custom` branch
of `getDateRange` passes the user strings through unchanged. -/
theorem claim7_custom_range_validation (dr : DateRangeStrs) :
    (validateDateRange dr = none ↔
      ∃ s e ds de, dr.start = some s ∧ dr.end_ = some e ∧ s ≠ "" ∧ e ≠ "" ∧
        parseJsDate s = some ds ∧ parseJsDate e = some de ∧ dateLt de ds = false) ∧
    (∀ todayDN (a : Answers), a.dateRangeType = "custom" →
      getDateRange todayDN a = .ok ⟨a.customStartDate, a.customEndDate⟩) := by
  constructor
  · obtain ⟨os, oe⟩ := dr
    constructor
    · intro h
      unfold validateDateRange at h
      split at h
      · exact absurd h (by simp)
      · rename_i hfal
        rw [not_or] at hfal
        obtain ⟨hfs, hfe⟩ := hfal
        have hs : ∃ s, os = some s ∧ s ≠ "" := by
          cases os with
          | none => simp [falsyStr] at hfs
          | some s =>
            refine ⟨s, rfl, ?_⟩
            simp only [falsyStr, Bool.not_eq_true] at hfs
            simpa using hfs
        have he : ∃ e, oe = some e ∧ e ≠ "" := by
          cases oe with
          | none => simp [falsyStr] at hfe
          | some e =>
            refine ⟨e, rfl, ?_⟩
            simp only [falsyStr, Bool.not_eq_true] at hfe
            simpa using hfe
        obtain ⟨s, hos, hsne⟩ := hs
        obtain ⟨e, hoe, hene⟩ := he
        subst hos
        subst hoe
        cases hps : parseJsDate (optStr (some s)) with
        | none =>
          cases hpe : parseJsDate (optStr (some e)) with
          | none => simp [hps, hpe] at h
          | some de => simp [hps, hpe] at h
        | some ds =>
          cases hpe : parseJsDate (optStr (some e)) with
          | none => simp [hps, hpe] at h
          | some de =>
            simp only [hps, hpe] at h
            split at h
            · exact absurd h (by simp)
            · rename_i hlt
              exact ⟨s, e, ds, de, rfl, rfl, hsne, hene,
                hps, hpe, by simpa using hlt⟩
    · rintro ⟨s, e, ds, de, h1, h2, h3, h4, h5, h6, h7⟩
      subst h1
      subst h2
      unfold validateDateRange
      have hfs : falsyStr (some s) = false := by simpa [falsyStr] using h3
      have hfe : falsyStr (some e) = false := by simpa [falsyStr] using h4
      rw [if_neg (by simp [hfs, hfe])]
      have hps : parseJsDate (optStr (some s)) = some ds := h5
      have hpe : parseJsDate (optStr (some e)) = some de := h6
      rw [hps, hpe]
      simp [h7]
  · intro todayDN a ha
    unfold getDateRange
    simp [ha]

/-- Claim C7 counterexample: the custom start `"2024-01"` is not in
`YYYY-MM-DD` format, yet validation accepts the range and the normalizer
produces a full descriptor for it — non-`YYYY-MM-DD` custom input is not
rejected. -/
theorem claim7_counterexample :
    validateDateRange ⟨some "2024-01", some "2024-03-05"⟩ = none ∧
    isYYYYMMDD "2024-01" = false ∧
    runQueryValidated 0 answersShortIso cfgShip = .ok descriptorShortIso :=
  ⟨by decide, by decide, by decide⟩

theorem claim7_witness :
    validateDateRange ⟨some "2024-01-01", some "2024-02-01"⟩ = none ∧
    getDateRange 5 answersShortIso = .ok ⟨some "2024-01", some "2024-03-05"⟩ :=
  ⟨(claim7_custom_range_validation ⟨some "2024-01-01", some "2024-02-01"⟩).1.mpr
     ⟨"2024-01-01", "2024-02-01", ⟨2024, 1, 1⟩, ⟨2024, 2, 1⟩, rfl, rfl, by decide, by decide,
       by decide, by decide, by decide⟩,
   (claim7_custom_range_validation ⟨none, none⟩).2 5 answersShortIso (by decide)⟩

theorem mergeFuel_eq (le : Row → Row → Bool) :
    ∀ (n : ℕ) (xs ys : List Row), xs.length + ys.length ≤ n →
      mergeFuel le n xs ys = xs.merge ys le := by
  intro n
  induction n with
  | zero =>
    intro xs ys h
    cases xs with
    | nil => simp [mergeFuel]
    | cons x xs =>
      cases ys with
      | nil => simp [mergeFuel]
      | cons y ys => simp at h
  | succ n ih =>
    intro xs ys h
    cases xs with
    | nil => simp [mergeFuel]
    | cons x xs =>
      cases ys with
      | nil => simp [mergeFuel]
      | cons y ys =>
        rw [List.cons_merge_cons]
        simp only [mergeFuel]
        simp only [List.length_cons] at h
        split
        · rw [ih xs (y :: ys) (by simp only [List.length_cons]; omega)]
        · rw [ih (x :: xs) ys (by simp only [List.length_cons]; omega)]

theorem sortFuel_eq (le : Row → Row → Bool) :
    ∀ (n : ℕ) (l : List Row), l.length ≤ n → sortFuel le n l = l.mergeSort le := by
  intro n
  induction n with
  | zero =>
    intro l h
    cases l with
    | nil => simp [sortFuel]
    | cons a t =>
      cases t with
      | nil => simp [sortFuel]
      | cons b t2 => simp at h
  | succ n ih =>
    intro l h
    cases l with
    | nil => simp [sortFuel]
    | cons a t =>
      cases t with
      | nil => simp [sortFuel]
      | cons b t2 =>
        simp only [List.length_cons] at h
        rw [List.mergeSort]
        simp only [sortFuel, List.splitInTwo, List.splitAt_eq]
        rw [ih ((a :: b :: t2).take (((a :: b :: t2).length + 1) / 2)) ?h1]
        rw [ih ((a :: b :: t2).drop (((a :: b :: t2).length + 1) / 2)) ?h2]
        rw [mergeFuel_eq le ((a :: b :: t2).length) _ _ ?h3]
        case h1 =>
          have h4 := List.length_take_le (((a :: b :: t2).length + 1) / 2) (a :: b :: t2)
          simp only [List.length_take, List.length_cons] at h4 ⊢
          omega
        case h2 =>
          simp only [List.length_drop, List.length_cons]
          omega
        case h3 =>
          simp only [List.length_mergeSort, List.length_take, List.length_drop,
            List.length_cons]
          omega

theorem jsSort_eq (le : Row → Row → Bool) (rows : List Row) :
    jsSort le rows = rows.mergeSort le :=
  sortFuel_eq le rows.length rows (le_refl _)

theorem splitUniq {α : Type} (q : α → Bool) :
    ∀ (u v u2 v2 : List α), u ++ v = u2 ++ v2 →
      (∀ b ∈ u, q b = false) → (∀ b ∈ v, q b = true) →
      (∀ b ∈ u2, q b = false) → (∀ b ∈ v2, q b = true) → u = u2 ∧ v = v2 := by
  intro u
  induction u with
  | nil =>
    intro v u2 v2 he hu hv hu2 hv2
    cases u2 with
    | nil => simpa using he
    | cons b u2t =>
      exfalso
      have hb := hu2 b (by simp)
      have hbv : b ∈ v := by
        rw [List.nil_append] at he
        rw [he]
        simp
      have := hv b hbv
      simp_all
  | cons a ut ih =>
    intro v u2 v2 he hu hv hu2 hv2
    cases u2 with
    | nil =>
      exfalso
      have ha := hu a (by simp)
      have hav : a ∈ v2 := by
        rw [List.nil_append] at he
        rw [← he]
        simp
      have := hv2 a hav
      simp_all
    | cons b u2t =>
      simp only [List.cons_append, List.cons.injEq] at he
      obtain ⟨hab, he2⟩ := he
      subst hab
      obtain ⟨h1, h2⟩ := ih v u2t v2 he2 (fun x hx => hu x (by simp [hx]))
        hv (fun x hx => hu2 x (by simp [hx])) hv2
      exact ⟨by rw [h1], h2⟩

theorem filter_mergeSort_global {α : Type} {le : α → α → Bool}
    (htrans : ∀ (a b c : α), le a b = true → le b c = true → le a c = true)
    (htotal : ∀ (a b : α), (le a b || le b a) = true)
    (p : α → Bool) : ∀ (l : List α), (l.mergeSort le).filter p = (l.filter p).mergeSort le := by
  intro l
  induction l with
  | nil => simp
  | cons a t ih =>
    obtain ⟨l₁, l₂, h₁, h₂, h₃⟩ := List.mergeSort_cons htrans htotal a t
    have hs : List.Pairwise (fun x y => le x y = true) (l₁ ++ a :: l₂) := by
      rw [← h₁]
      exact List.sorted_mergeSort htrans htotal _
    have hl₂ : ∀ x ∈ l₂, le a x = true :=
      (List.pairwise_cons.mp (List.pairwise_append.mp hs).2.1).1
    have hl₁ : ∀ x ∈ l₁, le a x = false := fun x hx => by simpa using h₃ x hx
    by_cases hp : p a = true
    · obtain ⟨m₁, m₂, g₁, g₂, g₃⟩ := List.mergeSort_cons htrans htotal a (t.filter p)
      have gs : List.Pairwise (fun x y => le x y = true) (m₁ ++ a :: m₂) := by
        rw [← g₁]
        exact List.sorted_mergeSort htrans htotal _
      have hm₂ : ∀ x ∈ m₂, le a x = true :=
        (List.pairwise_cons.mp (List.pairwise_append.mp gs).2.1).1
      have hm₁ : ∀ x ∈ m₁, le a x = false := fun x hx => by simpa using g₃ x hx
      have hEq : m₁ ++ m₂ = l₁.filter p ++ l₂.filter p := by
        rw [← g₂, ← ih, h₂, List.filter_append]
      obtain ⟨e₁, e₂⟩ := splitUniq (fun x => le a x) m₁ m₂ (l₁.filter p) (l₂.filter p) hEq
        hm₁ hm₂ (fun x hx => hl₁ x (List.mem_filter.mp hx).1)
        (fun x hx => hl₂ x (List.mem_filter.mp hx).1)
      calc (List.mergeSort (a :: t) le).filter p
          = (l₁ ++ a :: l₂).filter p := by rw [h₁]
        _ = l₁.filter p ++ a :: l₂.filter p := by
            rw [List.filter_append, List.filter_cons_of_pos hp]
        _ = m₁ ++ a :: m₂ := by rw [e₁, e₂]
        _ = (a :: t.filter p).mergeSort le := g₁.symm
        _ = ((a :: t).filter p).mergeSort le := by rw [List.filter_cons_of_pos hp]
    · have hp2 : p a = false := by simpa using hp
      calc (List.mergeSort (a :: t) le).filter p
          = (l₁ ++ a :: l₂).filter p := by rw [h₁]
        _ = l₁.filter p ++ l₂.filter p := by
            rw [List.filter_append, List.filter_cons_of_neg (by simp [hp2])]
        _ = (l₁ ++ l₂).filter p := (List.filter_append _ _).symm
        _ = (t.mergeSort le).filter p := by rw [h₂]
        _ = (t.filter p).mergeSort le := ih
        _ = ((a :: t).filter p).mergeSort le := by
            rw [List.filter_cons_of_neg (by simp [hp2])]

theorem subLe_trans {α : Type} {le : α → α → Bool} {l : List α}
    (htrans : ∀ a ∈ l, ∀ b ∈ l, ∀ c ∈ l, le a b = true → le b c = true → le a c = true) :
    ∀ (a b c : {x // x ∈ l}), subLe le l a b = true → subLe le l b c = true →
      subLe le l a c = true :=
  fun a b c => htrans a.1 a.2 b.1 b.2 c.1 c.2

theorem subLe_total {α : Type} {le : α → α → Bool} {l : List α}
    (htotal : ∀ a ∈ l, ∀ b ∈ l, (le a b || le b a) = true) :
    ∀ (a b : {x // x ∈ l}), (subLe le l a b || subLe le l b a) = true :=
  fun a b => htotal a.1 a.2 b.1 b.2

theorem mergeSort_attach_map {α : Type} (le : α → α → Bool) (l : List α) :
    l.mergeSort le = (l.attach.mergeSort (subLe le l)).map Subtype.val := by
  rw [List.map_mergeSort (r := subLe le l) (s := le) (f := Subtype.val)
    (fun x _ y _ => rfl), List.attach_map_subtype_val]

theorem filter_mergeSort_local {α : Type} {le : α → α → Bool} (l : List α) (p : α → Bool)
    (htrans : ∀ a ∈ l, ∀ b ∈ l, ∀ c ∈ l, le a b = true → le b c = true → le a c = true)
    (htotal : ∀ a ∈ l, ∀ b ∈ l, (le a b || le b a) = true) :
    (l.mergeSort le).filter p = (l.filter p).mergeSort le := by
  calc (l.mergeSort le).filter p
      = ((l.attach.mergeSort (subLe le l)).map Subtype.val).filter p := by
        rw [mergeSort_attach_map]
    _ = ((l.attach.mergeSort (subLe le l)).filter (p ∘ Subtype.val)).map Subtype.val :=
        List.filter_map _ _
    _ = ((l.attach.filter (p ∘ Subtype.val)).mergeSort (subLe le l)).map Subtype.val := by
        rw [filter_mergeSort_global (subLe_trans htrans) (subLe_total htotal)]
    _ = ((l.attach.filter (p ∘ Subtype.val)).map Subtype.val).mergeSort le := by
        rw [List.map_mergeSort (r := subLe le l) (s := le) (f := Subtype.val)
          (fun x _ y _ => rfl)]
    _ = ((l.attach.map Subtype.val).filter p).mergeSort le := by rw [← List.filter_map]
    _ = (l.filter p).mergeSort le := by rw [List.attach_map_subtype_val]

theorem mergeSort_idem_local {α : Type} {le : α → α → Bool} (l : List α)
    (htrans : ∀ a ∈ l, ∀ b ∈ l, ∀ c ∈ l, le a b = true → le b c = true → le a c = true)
    (htotal : ∀ a ∈ l, ∀ b ∈ l, (le a b || le b a) = true) :
    (l.mergeSort le).mergeSort le = l.mergeSort le := by
  have hsorted : List.Pairwise (fun a b => subLe le l a b = true)
      (l.attach.mergeSort (subLe le l)) :=
    List.sorted_mergeSort (subLe_trans htrans) (subLe_total htotal) _
  have h2 : ((l.attach.mergeSort (subLe le l)).mergeSort (subLe le l)).map Subtype.val =
      ((l.attach.mergeSort (subLe le l)).map Subtype.val).mergeSort le :=
    List.map_mergeSort (r := subLe le l) (s := le) (f := Subtype.val)
      (fun x _ y _ => rfl)
  rw [mergeSort_attach_map le l, ← h2, List.mergeSort_of_sorted hsorted]

theorem applySorting_columns (rows : List Row) (cfg : SortingConfig) (cols : List ColEntry)
    (hc : cfg.columns = some cols) :
    applySorting rows (some cfg) =
      (if cols.contains ColEntry.noneE ∨ cols.isEmpty then rows
       else if (sortItemsOf cols).isEmpty then rows
       else jsSort (rowLe (sortItemsOf cols)) rows) := by
  simp only [applySorting, hc]

/-- Claim C4 (amended): for every row array and non-sentinel columns-format
sort spec, sorting is idempotent whenever the spec's comparator is
consistent (transitive and total) on the rows — in particular whenever the
values at the sorted columns are mutually comparable.  For an inconsistent
comparator (mixed string/number values can compare cyclically) ECMAScript
leaves the sort order implementation-defined and idempotence fails in the
stable-merge-sort model (see the counterexample). -/
theorem claim4_sort_idempotent (rows : List Row) (cfg : SortingConfig) (cols : List ColEntry)
    (hc : cfg.columns = some cols)
    (htrans : ∀ a ∈ rows, ∀ b ∈ rows, ∀ c ∈ rows,
      rowLe (sortItemsOf cols) a b = true → rowLe (sortItemsOf cols) b c = true →
      rowLe (sortItemsOf cols) a c = true)
    (htotal : ∀ a ∈ rows, ∀ b ∈ rows,
      (rowLe (sortItemsOf cols) a b || rowLe (sortItemsOf cols) b a) = true) :
    applySorting (applySorting rows (some cfg)) (some cfg) = applySorting rows (some cfg) := by
  by_cases h1 : cols.contains ColEntry.noneE ∨ cols.isEmpty
  · rw [applySorting_columns _ cfg cols hc, if_pos h1, applySorting_columns _ cfg cols hc,
      if_pos h1]
  · by_cases h2 : (sortItemsOf cols).isEmpty
    · rw [applySorting_columns _ cfg cols hc, if_neg h1, if_pos h2,
        applySorting_columns _ cfg cols hc, if_neg h1, if_pos h2]
    · rw [applySorting_columns _ cfg cols hc, if_neg h1, if_neg h2,
        applySorting_columns _ cfg cols hc, if_neg h1, if_neg h2]
      simp only [jsSort_eq]
      exact mergeSort_idem_local rows htrans htotal

/-- Claim C4 counterexample: three rows whose `a` values compare in a strict
cycle (`20 < "100"` numerically, `"100" < "3"` lexicographically,
`"3" < 20` numerically) make the one-column ascending sort non-idempotent:
re-sorting the sorted rows changes the order again. -/
theorem claim4_counterexample :
    applySorting (applySorting rowsCycle (some sortColA)) (some sortColA) ≠
      applySorting rowsCycle (some sortColA) := by decide

theorem claim4_witness :
    applySorting (applySorting rowsNums (some sortColA)) (some sortColA) =
      applySorting rowsNums (some sortColA) :=
  claim4_sort_idempotent rowsNums sortColA [ColEntry.item "a" "asc"] rfl
    (by decide) (by decide)

/-- Claim C1 (amended): on a filter command the interactive view restarts at
page 0 and re-runs the filters over the session's row array (the original
array, sorted in place at session start).  Whenever the sort spec's
comparator is consistent (transitive and total) on the rows, the displayed
row array equals `applySorting(applyAllFilters(originalRows), spec)` — the
full sort+filter pipeline re-run from the original fetched rows.  For an
inconsistent comparator (mixed-type values) ECMAScript leaves the sort
order implementation-defined and the equality fails in the
stable-merge-sort model (see the counterexample). -/
theorem claim1_filter_restart_pipeline (rows : List Row) (cfg : SortingConfig)
    (cols : List ColEntry) (hc : cfg.columns = some cols) (f2 : FilterState)
    (htrans : ∀ a ∈ rows, ∀ b ∈ rows, ∀ c ∈ rows,
      rowLe (sortItemsOf cols) a b = true → rowLe (sortItemsOf cols) b c = true →
      rowLe (sortItemsOf cols) a c = true)
    (htotal : ∀ a ∈ rows, ∀ b ∈ rows,
      (rowLe (sortItemsOf cols) a b || rowLe (sortItemsOf cols) b a) = true) :
    (filterCommand (startTableSession rows (some cfg)) f2).page = 0 ∧
    (filterCommand (startTableSession rows (some cfg)) f2).filteredRows =
      applySorting (applyAllFilters f2 rows) (some cfg) := by
  refine ⟨rfl, ?_⟩
  show applyAllFilters f2 (renderSortedRows (applyAllFilters emptyFilters rows) (some cfg)) =
    applySorting (applyAllFilters f2 rows) (some cfg)
  rw [applyAllFilters_empty]
  by_cases hn : cols.contains ColEntry.noneE
  · have hr : renderSortedRows rows (some cfg) = rows := by
      simp only [renderSortedRows, hc]
      rw [if_pos hn]
    have ha : ∀ X : List Row, applySorting X (some cfg) = X := fun X => by
      rw [applySorting_columns X cfg cols hc, if_pos (Or.inl hn)]
    rw [hr, ha]
  · have hr : renderSortedRows rows (some cfg) = applySorting rows (some cfg) := by
      simp only [renderSortedRows, hc]
      rw [if_neg hn]
    rw [hr]
    by_cases h1 : cols.isEmpty
    · have ha : ∀ X : List Row, applySorting X (some cfg) = X := fun X => by
        rw [applySorting_columns X cfg cols hc, if_pos (Or.inr h1)]
      rw [ha, ha]
    · by_cases h2 : (sortItemsOf cols).isEmpty
      · have ha : ∀ X : List Row, applySorting X (some cfg) = X := fun X => by
          rw [applySorting_columns X cfg cols hc, if_neg (not_or.mpr ⟨hn, h1⟩), if_pos h2]
        rw [ha, ha]
      · have ha : ∀ X : List Row, applySorting X (some cfg) =
            jsSort (rowLe (sortItemsOf cols)) X := fun X => by
          rw [applySorting_columns X cfg cols hc, if_neg (not_or.mpr ⟨hn, h1⟩), if_neg h2]
        rw [ha, ha]
        rw [applyAllFilters_eq_filter, applyAllFilters_eq_filter]
        simp only [jsSort_eq]
        exact filter_mergeSort_local rows (filterPasses f2) htrans htotal

/-- Claim C1 counterexample: with rows mixing a numeric-looking string, a
plain string and a number at the sorted column (an inconsistent
comparator), the rows displayed after a filter command differ from
`applySorting(applyAllFilters(originalRows), spec)`: the session shows the
filters applied to the in-place-sorted array, which is not the same order
as sorting the filtered original rows. -/
theorem claim1_counterexample :
    (filterCommand (startTableSession rowsMixed (some sortColA)) filterNotFive).page = 0 ∧
    (filterCommand (startTableSession rowsMixed (some sortColA)) filterNotFive).filteredRows ≠
      applySorting (applyAllFilters filterNotFive rowsMixed) (some sortColA) :=
  ⟨by decide, by decide⟩

theorem claim1_witness :
    (filterCommand (startTableSession rowsNums (some sortColA)) filterGeTwo).page = 0 ∧
    (filterCommand (startTableSession rowsNums (some sortColA)) filterGeTwo).filteredRows =
      applySorting (applyAllFilters filterGeTwo rowsNums) (some sortColA) :=
  claim1_filter_restart_pipeline rowsNums sortColA [ColEntry.item "a" "asc"] rfl filterGeTwo
    (by decide) (by decide)
